import Mathlib

/-!
Shallow embedding of the Kinetiq core decision engine
(`core/python/kinetiq_core/`): unit conversion, progression curves, the
rule-based autoregulation engine, and the online-learning layer
(calibration, LinUCB bandit, linear RPE model, feature encoder, ML policy).

Python floats are modelled as exact rationals (`ℚ`); Python ints as `ℤ`;
fallible code (`raise ValueError`) as `Except String`.  Python's built-in
`round` (banker's rounding: ties to even) is modelled by `pyround`.
`math.sqrt` in the bandit score is modelled by `Real.sqrt`, which makes the
bandit score functions noncomputable; everything else is executable.
-/

namespace Kinetiq

/-- `models.Unit` : the two display units. -/
inductive Unit where
  | lb
  | kg
deriving DecidableEq, Repr

/-- `Unit.value` in the source (the enum's string payload). -/
def Unit.value : Unit → String
  | .lb => "lb"
  | .kg => "kg"

/-- `models.UserSettings` (field defaults as in the source). -/
structure UserSettings where
  unit : Unit
  lb_increment : ℚ := 5/2
  kg_increment : ℚ := 5/4
  max_jump_lb : ℚ := 10
  max_jump_kg : ℚ := 5
deriving DecidableEq, Repr

/-- `models.ExerciseConfig`. -/
structure ExerciseConfig where
  name : String
  rep_range : ℤ × ℤ
  target_rpe_range : ℚ × ℚ := (7, 9)
  weight_increment_override : Option ℚ := none
  max_jump_override : Option ℚ := none
  reps_step : ℤ := 1
deriving DecidableEq, Repr

/-- `models.SetLog`. -/
structure SetLog where
  weight : ℚ
  reps : ℤ
  rpe : ℚ
deriving DecidableEq, Repr

/-- `models.Suggestion`.  The presentation-only fields (`explanation`,
`debug`) carry formatted strings / a debug dict in the source and do not
feed back into any computation; they are not modelled. -/
structure Suggestion where
  action : String
  next_weight : ℚ
  next_reps : ℤ
  unit : Unit
deriving DecidableEq, Repr

/-- `units.LB_PER_KG = 2.2046226218`. -/
def LB_PER_KG : ℚ := 22046226218 / 10000000000

/-- `units.to_kg`. -/
def to_kg (weight : ℚ) (unit : Unit) : ℚ :=
  if unit = Unit.lb then weight / LB_PER_KG else weight

/-- `units.from_kg`. -/
def from_kg (weight_kg : ℚ) (unit : Unit) : ℚ :=
  if unit = Unit.lb then weight_kg * LB_PER_KG else weight_kg

/-- Python's built-in `round`: nearest integer, ties to even. -/
def pyround (q : ℚ) : ℤ :=
  if q - ⌊q⌋ = 1/2 then (if 2 ∣ ⌊q⌋ then ⌊q⌋ else ⌊q⌋ + 1) else round q

/-- `units.round_to_increment` (the increment is floored at `1e-9`). -/
def round_to_increment (x : ℚ) (inc : ℚ) : ℚ :=
  let inc := max (1/1000000000) inc
  (pyround (x / inc) : ℚ) * inc

/-- `units.clamp_int`. -/
def clamp_int (x lo hi : ℤ) : ℤ :=
  max lo (min hi x)

/-- `units.increment_in_kg`. -/
def increment_in_kg (settings : UserSettings) (override : Option ℚ) : ℚ :=
  match override with
  | some o => to_kg o settings.unit
  | none =>
    if settings.unit = Unit.lb then to_kg settings.lb_increment Unit.lb
    else settings.kg_increment

/-- `units.max_jump_in_kg`. -/
def max_jump_in_kg (settings : UserSettings) (override : Option ℚ) : ℚ :=
  match override with
  | some o => to_kg o settings.unit
  | none =>
    if settings.unit = Unit.lb then to_kg settings.max_jump_lb Unit.lb
    else settings.max_jump_kg

/-- `units.normalize_display_weight`: nearest 0.5 lb / nearest 0.25 kg. -/
def normalize_display_weight (weight : ℚ) (unit : Unit) : ℚ :=
  if unit = Unit.lb then (pyround (weight * 2) : ℚ) / 2
  else (pyround (weight * 4) : ℚ) / 4

/-- `progression.jump_from_rpe_lb`: piecewise weight-jump curve in lb. -/
def jump_from_rpe_lb (rpe : ℚ) : ℚ :=
  let rpe := max 1 (min 10 rpe)
  if rpe ≤ 3 then 35/2 - (5/2) * rpe
  else if rpe ≤ 7 then 10 + (rpe - 4) * (-(5:ℚ)/3)
  else 5

/-- `progression.jump_from_rpe`: same curve in the user's unit. -/
def jump_from_rpe (rpe : ℚ) (unit : Unit) : ℚ :=
  let jump_lb := jump_from_rpe_lb rpe
  if unit = Unit.kg then to_kg jump_lb Unit.lb else jump_lb

/-- `progression.rep_delta_from_rpe`. -/
def rep_delta_from_rpe (rpe : ℚ) : ℤ :=
  let rpe := max 1 (min 10 rpe)
  if rpe ≤ 3 then 3
  else if rpe ≤ 6 then 2
  else if rpe ≤ 8 then 1
  else if rpe ≤ 9 then 0
  else -1

/-- `rpe_rules.validate_inputs`: raises (`Except.error`) on malformed input. -/
def validate_inputs (last_set : SetLog) (cfg : ExerciseConfig) :
    Except String PUnit.{1} :=
  if cfg.rep_range.1 < 1 ∨ cfg.rep_range.2 < cfg.rep_range.1 then
    .error "Invalid rep_range"
  else if ¬ (1 ≤ last_set.rpe ∧ last_set.rpe ≤ 10) then
    .error "RPE must be between 1 and 10"
  else if last_set.reps < 1 then
    .error "reps must be >= 1"
  else if last_set.weight ≤ 0 then
    .error "weight must be > 0"
  else
    .ok PUnit.unit

/-- `rpe_rules._dynamic_weight_increase_kg`. -/
def dynamic_weight_increase_kg (rpe : ℚ) (settings : UserSettings)
    (inc_kg max_jump_kg : ℚ) : ℚ :=
  let min_delta_user : ℚ := if settings.unit.value = "lb" then 5 else 5/2
  let min_delta_kg := to_kg min_delta_user settings.unit
  let change_user := jump_from_rpe rpe settings.unit
  let change_kg := to_kg change_user settings.unit
  min max_jump_kg (max (max change_kg min_delta_kg) inc_kg)

/-- `rpe_rules._recent_same_prescription_rpes`: up to the last `k` RPEs from
history whose (weight, reps) match, most recent first. -/
def recent_same_prescription_rpes (history : List SetLog)
    (weight : ℚ) (reps : ℤ) (k : ℕ) : List ℚ :=
  (((history.reverse.filter
      (fun s => s.weight = weight ∧ s.reps = reps)).map SetLog.rpe).take k)

/-- `rpe_rules._should_add_weight_from_rpe_drop` with the call-site
arguments `drop_threshold=1.0, k_baseline=3` (so `k = 4`). -/
def should_add_weight_from_rpe_drop (history : Option (List SetLog))
    (last_set : SetLog) : Bool :=
  match history with
  | none => false
  | some h =>
    if h.length < 2 then false
    else
      let ms := recent_same_prescription_rpes h last_set.weight last_set.reps 4
      if ms.length < 2 then false
      else
        let current := ms.headD 0
        let baseline_pool := ms.tail
        let baseline := baseline_pool.sum / (baseline_pool.length : ℚ)
        decide (baseline - current ≥ 1)

/-- The decision part of `rpe_rules.suggest_next_set_from_rpe`
(lines 128–221): everything up to the rounding/capping post-processing.
Returns `(action, next_w_kg, next_reps)`. -/
def decide_branch (last_set : SetLog) (cfg : ExerciseConfig)
    (settings : UserSettings) (history : Option (List SetLog)) :
    String × ℚ × ℤ :=
  let rep_min := cfg.rep_range.1
  let rep_max := cfg.rep_range.2
  let rpe_min := cfg.target_rpe_range.1
  let rpe_max := cfg.target_rpe_range.2
  let w_kg := to_kg last_set.weight settings.unit
  let inc_kg := increment_in_kg settings cfg.weight_increment_override
  let max_jump_kg := max_jump_in_kg settings cfg.max_jump_override
  let reps := last_set.reps
  let rpe := last_set.rpe
  let reps_push_ceiling : ℚ := 17/2
  if rpe > rpe_max then
    if reps ≤ rep_min then
      ("lower_weight", w_kg - min max_jump_kg inc_kg, rep_min)
    else
      ("lower_reps", w_kg, clamp_int (reps + rep_delta_from_rpe rpe) rep_min rep_max)
  else if rpe < rpe_min then
    if reps < rep_max then
      ("add_reps", w_kg, clamp_int (reps + 1) rep_min rep_max)
    else
      ("add_weight", w_kg + dynamic_weight_increase_kg rpe settings inc_kg max_jump_kg, rep_min)
  else
    let drop_ok := should_add_weight_from_rpe_drop history last_set
    if reps ≥ rep_max then
      let mid := (rpe_min + rpe_max) / 2
      if rpe ≤ mid ∨ drop_ok = true then
        ("add_weight", w_kg + dynamic_weight_increase_kg rpe settings inc_kg max_jump_kg, rep_min)
      else
        ("stay", w_kg, rep_max)
    else
      let tentative :=
        if rpe ≤ reps_push_ceiling then
          ("add_reps", w_kg, clamp_int (reps + 1) rep_min rep_max)
        else
          ("stay", w_kg, clamp_int reps rep_min rep_max)
      if drop_ok = true ∧ rpe ≤ rpe_max - 1/5 then
        ("add_weight", w_kg + dynamic_weight_increase_kg rpe settings inc_kg max_jump_kg, rep_min)
      else tentative

/-- The rounding / max-jump-capping post-processing of
`rpe_rules.suggest_next_set_from_rpe` (lines 223–227), in kg. -/
def cap_round (w_kg next_w_kg inc_kg max_jump_kg : ℚ) : ℚ :=
  let r1 := round_to_increment next_w_kg inc_kg
  if |r1 - w_kg| > max_jump_kg then
    round_to_increment
      (w_kg + (if r1 > w_kg then max_jump_kg else -max_jump_kg)) inc_kg
  else r1

/-- `rpe_rules.suggest_next_set_from_rpe` (Jeff-style B, history-aware). -/
def suggest_next_set_from_rpe (last_set : SetLog) (cfg : ExerciseConfig)
    (settings : UserSettings) (history : Option (List SetLog)) :
    Except String Suggestion :=
  match validate_inputs last_set cfg with
  | .error e => .error e
  | .ok _ =>
    let w_kg := to_kg last_set.weight settings.unit
    let inc_kg := increment_in_kg settings cfg.weight_increment_override
    let max_jump_kg := max_jump_in_kg settings cfg.max_jump_override
    let b := decide_branch last_set cfg settings history
    let next_w_kg := cap_round w_kg b.2.1 inc_kg max_jump_kg
    let next_weight_user :=
      normalize_display_weight (from_kg next_w_kg settings.unit) settings.unit
    .ok ⟨b.1, next_weight_user, b.2.2, settings.unit⟩

/-! ### Online learning layer (`kinetiq_core/ml/`) -/

/-- `ml.calibration.RPECalibration`: Welford-style running mean/variance of
RPE residuals. -/
structure RPECalibration where
  n : ℕ := 0
  bias : ℚ := 0
  m2 : ℚ := 0
deriving DecidableEq, Repr

/-- `RPECalibration.update` (functional form of the in-place mutation). -/
def RPECalibration.update (c : RPECalibration) (residual : ℚ) : RPECalibration :=
  let n := c.n + 1
  let delta := residual - c.bias
  let bias := c.bias + delta / (n : ℚ)
  let delta2 := residual - bias
  ⟨n, bias, c.m2 + delta * delta2⟩

/-- `RPECalibration.variance` (property). -/
def RPECalibration.variance (c : RPECalibration) : ℚ :=
  if c.n < 2 then 1 else c.m2 / ((c.n : ℚ) - 1)

/-- `RPECalibration.calibrate`. -/
def RPECalibration.calibrate (c : RPECalibration) (rpe : ℚ) : ℚ :=
  rpe - c.bias

/-- `ml.bandit.dot` (also defined identically in `ml.online_models`). -/
def dot (a b : List ℚ) : ℚ :=
  (List.zipWith (fun x y => x * y) a b).sum

/-- `ml.bandit.matvec`. -/
def matvec (A : List (List ℚ)) (x : List ℚ) : List ℚ :=
  A.map (fun row => dot row x)

/-- `ml.bandit.outer`. -/
def outer (x y : List ℚ) : List (List ℚ) :=
  x.map (fun xi => y.map (fun yj => xi * yj))

/-- `ml.bandit.add_inplace` (functional form: `A + scale • B`). -/
def add_scaled (A B : List (List ℚ)) (scale : ℚ) : List (List ℚ) :=
  List.zipWith (fun ra rb => List.zipWith (fun a b => a + scale * b) ra rb) A B

/-- `ml.bandit.identity`. -/
def identity (d : ℕ) (val : ℚ) : List (List ℚ) :=
  (List.range d).map (fun i => (List.range d).map (fun j => if i = j then val else 0))

/-- `ml.bandit.sherman_morrison_inv_update` (functional form): update
`(A + x xᵗ)⁻¹` from `A⁻¹`; no-op when the denominator is zero. -/
def sherman_morrison_inv_update (Ainv : List (List ℚ)) (x : List ℚ) :
    List (List ℚ) :=
  let u := matvec Ainv x
  let denom := 1 + dot x u
  if denom = 0 then Ainv
  else add_scaled Ainv (outer u u) (-(1 / denom))

/-- `ml.bandit.LinUCBBandit`: the per-action dicts `Ainv` and `b` are
modelled as functions to `Option`. -/
structure LinUCBBandit where
  dim : ℕ
  alpha : ℚ := 3/2
  Ainv : String → Option (List (List ℚ))
  b : String → Option (List ℚ)

/-- `LinUCBBandit._ensure`, read side for `Ainv`: a missing action starts
at the identity matrix. -/
def LinUCBBandit.ensureAinv (bd : LinUCBBandit) (action : String) :
    List (List ℚ) :=
  (bd.Ainv action).getD (identity bd.dim 1)

/-- `LinUCBBandit._ensure`, read side for `b`: a missing action starts at
the zero vector. -/
def LinUCBBandit.ensureB (bd : LinUCBBandit) (action : String) : List ℚ :=
  (bd.b action).getD (List.replicate bd.dim 0)

/-- The `mean` part of `LinUCBBandit.score`: `dot(Ainv b, x)`. -/
def LinUCBBandit.meanTerm (bd : LinUCBBandit) (action : String) (x : List ℚ) : ℚ :=
  dot (matvec (bd.ensureAinv action) (bd.ensureB action)) x

/-- The `var` part of `LinUCBBandit.score`: `dot(x, Ainv x)`. -/
def LinUCBBandit.varTerm (bd : LinUCBBandit) (action : String) (x : List ℚ) : ℚ :=
  dot x (matvec (bd.ensureAinv action) x)

/-- The confidence part of `LinUCBBandit.score`: `alpha * sqrt(max 0 var)`. -/
noncomputable def LinUCBBandit.confTerm (bd : LinUCBBandit) (action : String)
    (x : List ℚ) : ℝ :=
  (bd.alpha : ℝ) * Real.sqrt (max 0 (bd.varTerm action x : ℚ))

/-- `LinUCBBandit.score`: `ucb = mean + alpha * sqrt(max(0, var))`. -/
noncomputable def LinUCBBandit.score (bd : LinUCBBandit) (action : String)
    (x : List ℚ) : ℝ :=
  (bd.meanTerm action x : ℝ) + bd.confTerm action x

open scoped Classical in
/-- `LinUCBBandit.choose`: highest score, first-argmax tie-break.  (The
source indexes `actions[0]`; on an empty list we return `""`, a case the
caller never produces.) -/
noncomputable def LinUCBBandit.choose (bd : LinUCBBandit) (actions : List String)
    (x : List ℚ) : String :=
  match actions with
  | [] => ""
  | a₀ :: rest =>
    (rest.foldl
      (fun best a =>
        let s := bd.score a x
        if s > best.2 then (a, s) else best)
      (a₀, bd.score a₀ x)).1

/-- `LinUCBBandit.update` (functional form): Sherman–Morrison step on the
chosen action's `Ainv`, and `b += reward * x`. -/
def LinUCBBandit.update (bd : LinUCBBandit) (action : String) (x : List ℚ)
    (reward : ℚ) : LinUCBBandit :=
  { bd with
    Ainv := fun a =>
      if a = action then some (sherman_morrison_inv_update (bd.ensureAinv action) x)
      else bd.Ainv a
    b := fun a =>
      if a = action then
        some (List.zipWith (fun bi xi => bi + reward * xi) (bd.ensureB action) x)
      else bd.b a }

/-- `ml.online_models.OnlineLinearRegressor` (the RPE predictor). -/
structure OnlineLinearRegressor where
  dim : ℕ
  lr : ℚ := 1/20
  l2 : ℚ := 1/10000
  w : List ℚ
  b : ℚ
deriving DecidableEq, Repr

/-- `OnlineLinearRegressor.predict`: `dot(w, x) + b`. -/
def OnlineLinearRegressor.predict (m : OnlineLinearRegressor) (x : List ℚ) : ℚ :=
  dot m.w x + m.b

/-- `OnlineLinearRegressor.update`: one SGD step on squared error with L2 on
the weights. -/
def OnlineLinearRegressor.update (m : OnlineLinearRegressor) (x : List ℚ)
    (y : ℚ) : OnlineLinearRegressor :=
  let err := m.predict x - y
  { m with
    w := List.zipWith (fun wi xi => wi - m.lr * (err * xi + m.l2 * wi)) m.w x
    b := m.b - m.lr * err }

/-- `ml.embeddings.EmbeddingTable`.  In the source, `get` on a missing key
draws `(random.random() - 0.5) * 0.1` per coordinate and stores the vector;
the embedding models that single lazily-drawn vector as the `fresh` field
(in all theorems below the tables are pre-populated, so `fresh` is never
consumed). -/
structure EmbeddingTable where
  dim : ℕ
  lr : ℚ := 1/20
  table : String → Option (List ℚ)
  fresh : List ℚ

/-- `EmbeddingTable.get`. -/
def EmbeddingTable.get (t : EmbeddingTable) (key : String) : List ℚ :=
  (t.table key).getD t.fresh

/-- `ml.features.clip`. -/
def clip (x lo hi : ℚ) : ℚ :=
  max lo (min hi x)

/-- `ml.features.HistorySummary` (defaults as in the source). -/
structure HistorySummary where
  last_rpe : ℚ := 8
  avg_rpe_3 : ℚ := 8
  rpe_trend_3 : ℚ := 0
  sessions_since : ℚ := 1
deriving DecidableEq, Repr

/-- `ml.features.summarize_history`.  Python `history[-3:]` is
`drop (length - 3)` (truncated subtraction gives the whole list when the
history is shorter than 3). -/
def summarize_history (history : List SetLog) : HistorySummary :=
  if history = [] then {}
  else
    let last := (history.getLastD ⟨0, 0, 0⟩).rpe
    let recent := history.drop (history.length - 3)
    let avg := (recent.map SetLog.rpe).sum / (recent.length : ℚ)
    let trend :=
      if 2 ≤ recent.length then
        (recent.getLastD ⟨0, 0, 0⟩).rpe - (recent.headD ⟨0, 0, 0⟩).rpe
      else 0
    { last_rpe := last, avg_rpe_3 := avg, rpe_trend_3 := trend, sessions_since := 1 }

/-- `ml.state.MLState`, restricted to the parts that feed the Suggestion.
The readiness (logistic) model and its self-supervised update are mutated by
the policy but never read when computing the Suggestion, so they are not
modelled; the calibration dict is likewise only written (its read feeds the
debug payload only). -/
structure MLState where
  rpe_model : OnlineLinearRegressor
  bandit : LinUCBBandit
  calibration_by_ex : String → Option RPECalibration
  user_embed : EmbeddingTable
  ex_embed : EmbeddingTable

/-- `ml.features.make_feature_vector`: the fixed 16-dimensional context.
List indexing `u[i]` is modelled with `getD` (the source would raise on a
short embedding vector; all states used here have 4-dim embeddings). -/
def make_feature_vector (state : MLState) (user_id : String)
    (exercise : ExerciseConfig) (settings : UserSettings)
    (proposed_weight : ℚ) (proposed_reps : ℤ) (history : List SetLog) :
    List ℚ :=
  let rep_min := exercise.rep_range.1
  let rep_max := exercise.rep_range.2
  let h := summarize_history history
  let u := state.user_embed.get user_id
  let e := state.ex_embed.get exercise.name
  let w := proposed_weight / 500
  let r := (proposed_reps : ℚ) / 30
  let rr_min := (rep_min : ℚ) / 30
  let rr_max := (rep_max : ℚ) / 30
  let last_rpe := h.last_rpe / 10
  let avg_rpe := h.avg_rpe_3 / 10
  let trend := clip (h.rpe_trend_3 / 10) (-1) 1
  let unit_flag : ℚ := if settings.unit.value = "kg" then 1 else 0
  [w, r, rr_min, rr_max, last_rpe, avg_rpe, trend, unit_flag,
   u.getD 0 0, u.getD 1 0, u.getD 2 0, u.getD 3 0,
   e.getD 0 0, e.getD 1 0, e.getD 2 0, e.getD 3 0]

/-- `ml.policy.ACTIONS`. -/
def ACTIONS : List String :=
  ["add_weight", "add_reps", "stay", "lower_reps", "lower_weight"]

/-- `ml.policy._weight_candidates`. -/
def weight_candidates (last_w : ℚ) (unit : String) : List ℚ :=
  if unit = "kg" then [last_w + 5/2, last_w + 5, last_w + 15/2, last_w - 5/2]
  else [last_w + 5, last_w + 10, last_w + 15, last_w - 5]

/-- Candidate generation of `ml.policy.suggest_next_set_ml` (lines 86–104):
weight candidates (equal weight skipped), rep candidates, then the
always-present `stay` candidate. -/
def mlCandidates (exercise : ExerciseConfig) (last_set : SetLog)
    (settings : UserSettings) : List (String × ℚ × ℤ) :=
  let rep_min := exercise.rep_range.1
  let rep_max := exercise.rep_range.2
  ((weight_candidates last_set.weight settings.unit.value).filterMap
    (fun w =>
      if w > last_set.weight then some ("add_weight", w, rep_min)
      else if w < last_set.weight then some ("lower_weight", w, rep_min)
      else none))
  ++ (if last_set.reps < rep_max then
        [("add_reps", last_set.weight, min rep_max (last_set.reps + 1)),
         ("add_reps", last_set.weight, min rep_max (last_set.reps + 2))]
      else [])
  ++ (if last_set.reps > rep_min then
        [("lower_reps", last_set.weight, max rep_min (last_set.reps - 1))]
      else [])
  ++ [("stay", last_set.weight, max rep_min (min rep_max last_set.reps))]

/-- Predicted RPE of one candidate in `ml.policy.suggest_next_set_ml`
(line 119–120): features of the candidate against the full history, scored
with the already-updated RPE model. -/
def candPred (state : MLState) (user_id : String) (exercise : ExerciseConfig)
    (settings : UserSettings) (history : List SetLog)
    (model : OnlineLinearRegressor) (c : String × ℚ × ℤ) : ℚ :=
  model.predict
    (make_feature_vector state user_id exercise settings c.2.1 c.2.2 history)

/-- Score of one candidate in `ml.policy.suggest_next_set_ml`
(lines 122–146): closeness to the target band + progress bonus + bandit
action-match bonus − too-hard penalty. -/
def candScore (state : MLState) (user_id : String) (exercise : ExerciseConfig)
    (settings : UserSettings) (last_set : SetLog) (history : List SetLog)
    (model : OnlineLinearRegressor) (chosen_action : String)
    (c : String × ℚ × ℤ) : ℚ :=
  let rpe_min_t := exercise.target_rpe_range.1
  let rpe_max_t := exercise.target_rpe_range.2
  let pred_rpe := candPred state user_id exercise settings history model c
  let closeness :=
    if pred_rpe < rpe_min_t then 1 - (rpe_min_t - pred_rpe) / 5
    else if pred_rpe > rpe_max_t then 1 - (pred_rpe - rpe_max_t) / 5
    else 1
  let progress :=
    (if c.2.1 > last_set.weight then (c.2.1 - last_set.weight) / 15 else 0)
    + (if c.2.2 > last_set.reps then ((c.2.2 : ℚ) - (last_set.reps : ℚ)) / 3 else 0)
  let penalty : ℚ := if pred_rpe ≥ 19/2 then 3/4 else 0
  let mtch : ℚ := if c.1 = chosen_action then 3/20 else 0
  closeness + progress + mtch - penalty

/-- The best-candidate fold of `ml.policy.suggest_next_set_ml`
(lines 114–150): running `(best, best_score)` pair, started at
`(None, -1e9)`, replaced on strictly larger score. -/
def mlBestAux (score : String × ℚ × ℤ → ℚ) (pred : String × ℚ × ℤ → ℚ)
    (candidates : List (String × ℚ × ℤ)) :
    Option (String × ℚ × ℤ × ℚ) × ℚ :=
  candidates.foldl
    (fun acc c =>
      if score c > acc.2 then (some (c.1, c.2.1, c.2.2, pred c), score c) else acc)
    (none, -(10 : ℚ)^9)

/-- `ml.policy.suggest_next_set_ml`.  The calibration update, the readiness
update, and the final bandit update mutate the state without affecting the
returned Suggestion and are dropped here; the RPE-model update (line 83)
happens before candidate scoring and is kept. -/
noncomputable def suggest_next_set_ml (state : MLState) (user_id : String)
    (exercise : ExerciseConfig) (last_set : SetLog) (settings : UserSettings)
    (history : List SetLog) : Except String Suggestion :=
  if history.length < 3 then
    suggest_next_set_from_rpe last_set exercise settings none
  else
    let x_last := make_feature_vector state user_id exercise settings
      last_set.weight last_set.reps history.dropLast
    let model := state.rpe_model.update x_last last_set.rpe
    let candidates := mlCandidates exercise last_set settings
    let x_ctx := make_feature_vector state user_id exercise settings
      last_set.weight last_set.reps history
    let chosen_action := state.bandit.choose ACTIONS x_ctx
    match (mlBestAux
        (candScore state user_id exercise settings last_set history model chosen_action)
        (candPred state user_id exercise settings history model)
        candidates).1 with
    | none => suggest_next_set_from_rpe last_set exercise settings none
    | some best =>
      .ok ⟨best.1, normalize_display_weight best.2.1 settings.unit,
           best.2.2.1, settings.unit⟩




/-- Decidable equality for `Except` results (component-wise). -/
instance {e a : Type} [DecidableEq e] [DecidableEq a] : DecidableEq (Except e a) := fun x y =>
  match x, y with
  | .ok u, .ok v =>
    if h : u = v then .isTrue (by rw [h]) else .isFalse (by simp [h])
  | .error u, .error v =>
    if h : u = v then .isTrue (by rw [h]) else .isFalse (by simp [h])
  | .ok _, .error _ => .isFalse (by simp)
  | .error _, .ok _ => .isFalse (by simp)

/-! ### Concrete instances used by witnesses and counterexamples -/

/-- Default lb settings (as the repo's tests construct them). -/
def settingsLB : UserSettings := { unit := Unit.lb }

/-- Default kg settings. -/
def settingsKG : UserSettings := { unit := Unit.kg }

/-- The bench configuration used throughout the repo's tests. -/
def cfgBench : ExerciseConfig :=
  { name := "bench", rep_range := (5, 8), target_rpe_range := (7, 9) }

/-- A configuration whose effective increment (10 kg) is much larger than
its max-jump cap (2 kg). -/
def cfgCoarse : ExerciseConfig :=
  { name := "coarse", rep_range := (5, 8), target_rpe_range := (7, 9),
    weight_increment_override := some 10, max_jump_override := some 2 }

/-- An embedding table holding the zero vector for the keys "u" and
"bench" (so no lazy random initialization is ever triggered). -/
def embZero : EmbeddingTable :=
  { dim := 4,
    table := fun k => if k = "u" ∨ k = "bench" then some [0, 0, 0, 0] else none,
    fresh := [0, 0, 0, 0] }

/-- A fresh 16-dim LinUCB bandit (no action seen yet). -/
def banditFresh : LinUCBBandit :=
  { dim := 16, Ainv := fun _ => none, b := fun _ => none }

/-- A fresh 1-dim LinUCB bandit, used to analyse repeated updates on a
single action with a scalar context. -/
def banditOne : LinUCBBandit :=
  { dim := 1, Ainv := fun _ => none, b := fun _ => none }

/-- ML state whose RPE model has zero weights and bias 9.4. -/
def stNine : MLState :=
  { rpe_model := { dim := 16, w := [0, 0, 0, 0, 0, 0, 0, 0, 0, 0, 0, 0, 0, 0, 0, 0], b := 47/5 },
    bandit := banditFresh,
    calibration_by_ex := fun _ => none,
    user_embed := embZero, ex_embed := embZero }

/-- ML state whose RPE model has zero weights and an absurdly large bias,
making every candidate score fall below the `-1e9` sentinel. -/
def stHuge : MLState :=
  { rpe_model := { dim := 16, w := [0, 0, 0, 0, 0, 0, 0, 0, 0, 0, 0, 0, 0, 0, 0, 0], b := 10^11 },
    bandit := banditFresh,
    calibration_by_ex := fun _ => none,
    user_embed := embZero, ex_embed := embZero }

/-- A fresh ML state (zero RPE model). -/
def stFresh : MLState :=
  { rpe_model := { dim := 16, w := [0, 0, 0, 0, 0, 0, 0, 0, 0, 0, 0, 0, 0, 0, 0, 0], b := 0 },
    bandit := banditFresh,
    calibration_by_ex := fun _ => none,
    user_embed := embZero, ex_embed := embZero }

/-- Two-element history: the same 185×6 prescription got easier by 1.5 RPE. -/
def histDrop : List SetLog := [⟨185, 6, 17/2⟩, ⟨185, 6, 7⟩]

/-- Three identical kg sets at RPE 9.4. -/
def histNine : List SetLog := [⟨100, 6, 47/5⟩, ⟨100, 6, 47/5⟩, ⟨100, 6, 47/5⟩]

/-- Three identical kg sets at RPE 8. -/
def histEight : List SetLog := [⟨100, 6, 8⟩, ⟨100, 6, 8⟩, ⟨100, 6, 8⟩]

/-! ### Helper lemmas -/

/-- Python's round is within a half of its argument. -/
theorem abs_pyround_sub (q : ℚ) : |(pyround q : ℚ) - q| ≤ 1/2 := by
  unfold pyround
  split_ifs with ht he
  · have h : ((⌊q⌋ : ℤ) : ℚ) - q = -(1/2) := by
      have := ht; linarith
    rw [h, abs_neg, abs_of_pos (by norm_num : (0:ℚ) < 1/2)]
  · have h : ((⌊q⌋ + 1 : ℤ) : ℚ) - q = 1/2 := by
      push_cast
      linarith
    rw [h, abs_of_pos (by norm_num : (0:ℚ) < 1/2)]
  · rw [abs_sub_comm]; exact abs_sub_round q

/-- `round_to_increment` moves its argument by at most half the effective
increment. -/
theorem round_to_increment_close (x inc : ℚ) :
    |round_to_increment x inc - x| ≤ max (1/1000000000) inc / 2 := by
  unfold round_to_increment
  set i := max (1/1000000000) inc with hi
  have hipos : 0 < i := lt_of_lt_of_le (by norm_num) (le_max_left _ _)
  have hx : x = x / i * i := by field_simp
  calc |(pyround (x / i) : ℚ) * i - x|
      = |((pyround (x / i) : ℚ) - x / i) * i| := by
        rw [sub_mul]; rw [← hx]
    _ = |(pyround (x / i) : ℚ) - x / i| * i := by
        rw [abs_mul, abs_of_pos hipos]
    _ ≤ (1/2) * i := by
        have := abs_pyround_sub (x / i)
        nlinarith
    _ = i / 2 := by ring

/-- The post-processing step moves the weight by at most the max-jump cap
plus half the effective increment (for a nonnegative cap). -/
theorem cap_round_bound (w_kg x inc_kg max_jump_kg : ℚ)
    (hmj : 0 ≤ max_jump_kg) :
    |cap_round w_kg x inc_kg max_jump_kg - w_kg|
      ≤ max_jump_kg + max (1/1000000000) inc_kg / 2 := by
  unfold cap_round
  dsimp only
  have hhalf : (0:ℚ) ≤ max (1/1000000000) inc_kg / 2 := by
    have : (0:ℚ) < max (1/1000000000) inc_kg :=
      lt_of_lt_of_le (by norm_num) (le_max_left _ _)
    linarith
  split_ifs with h1 h2
  · -- clamp up to w + max_jump, re-round
    have hc := round_to_increment_close (w_kg + max_jump_kg) inc_kg
    calc |round_to_increment (w_kg + max_jump_kg) inc_kg - w_kg|
        = |(round_to_increment (w_kg + max_jump_kg) inc_kg - (w_kg + max_jump_kg))
            + max_jump_kg| := by ring_nf
      _ ≤ |round_to_increment (w_kg + max_jump_kg) inc_kg - (w_kg + max_jump_kg)|
            + |max_jump_kg| := abs_add _ _
      _ ≤ max (1/1000000000) inc_kg / 2 + max_jump_kg := by
            rw [abs_of_nonneg hmj]; linarith
      _ = max_jump_kg + max (1/1000000000) inc_kg / 2 := by ring
  · -- clamp down to w - max_jump, re-round
    have hc := round_to_increment_close (w_kg + -max_jump_kg) inc_kg
    calc |round_to_increment (w_kg + -max_jump_kg) inc_kg - w_kg|
        = |(round_to_increment (w_kg + -max_jump_kg) inc_kg - (w_kg + -max_jump_kg))
            + -max_jump_kg| := by ring_nf
      _ ≤ |round_to_increment (w_kg + -max_jump_kg) inc_kg - (w_kg + -max_jump_kg)|
            + |-max_jump_kg| := abs_add _ _
      _ ≤ max (1/1000000000) inc_kg / 2 + max_jump_kg := by
            rw [abs_neg, abs_of_nonneg hmj]; linarith
      _ = max_jump_kg + max (1/1000000000) inc_kg / 2 := by ring
  · -- already within the cap
    push_neg at h1
    linarith

/-- Clamping the RPE into [1, 10] is monotone. -/
theorem clampRpe_mono {r1 r2 : ℚ} (h : r1 ≤ r2) :
    max 1 (min 10 r1) ≤ max 1 (min 10 r2) :=
  max_le_max le_rfl (min_le_min le_rfl h)

/-- The two units are distinct (used to reduce unit tests in evaluations). -/
theorem kg_ne_lb : Unit.kg ≠ Unit.lb := fun h => Unit.noConfusion h

/-- The two units are distinct, other direction. -/
theorem lb_ne_kg : Unit.lb ≠ Unit.kg := fun h => Unit.noConfusion h

/-- Action-name disequalities used when reducing the candidate fold. -/
theorem ne_ar_aw : "add_reps" ≠ "add_weight" := by decide

/-- Action-name disequalities used when reducing the candidate fold. -/
theorem ne_lw_aw : "lower_weight" ≠ "add_weight" := by decide

/-- Action-name disequalities used when reducing the candidate fold. -/
theorem ne_lr_aw : "lower_reps" ≠ "add_weight" := by decide

/-- Action-name disequalities used when reducing the candidate fold. -/
theorem ne_st_aw : "stay" ≠ "add_weight" := by decide

/-! ### C3: progression-curve shape -/

/-- C3 counterexample: `jump_from_rpe_lb` is NOT monotonically
non-increasing on [1,10] — it jumps upward between RPE 3 and RPE 3.5
(10 versus 65/6 ≈ 10.83), because the second linear segment is anchored at
(4, 10), not at (3, 10). -/
theorem C3_counterexample :
    (1:ℚ) ≤ 3 ∧ (3:ℚ) ≤ 7/2 ∧ (7/2:ℚ) ≤ 10 ∧
      jump_from_rpe_lb 3 < jump_from_rpe_lb (7/2) := by
  refine ⟨by norm_num, by norm_num, by norm_num, ?_⟩
  norm_num [jump_from_rpe_lb]

/-- C3 (amended): `rep_delta_from_rpe` is monotonically non-increasing
everywhere; `jump_from_rpe_lb` is monotonically non-increasing on each
piece [1,3] and (3,10] but has an upward discontinuity at RPE 3; boundary
values are 15 at RPE 1 and 5 at RPE 7 and 10; the curve is linear from 15
to 10 on [1,3] and linear from 35/3 (not 10) down to 5 on (3,7]. -/
theorem C3_curve_shape :
    (∀ r1 r2 : ℚ, r1 ≤ r2 → rep_delta_from_rpe r2 ≤ rep_delta_from_rpe r1)
    ∧ (∀ r1 r2 : ℚ, 1 ≤ r1 → r1 ≤ r2 → r2 ≤ 3 →
        jump_from_rpe_lb r2 ≤ jump_from_rpe_lb r1)
    ∧ (∀ r1 r2 : ℚ, 3 < r1 → r1 ≤ r2 → r2 ≤ 10 →
        jump_from_rpe_lb r2 ≤ jump_from_rpe_lb r1)
    ∧ jump_from_rpe_lb 1 = 15
    ∧ jump_from_rpe_lb 7 = 5
    ∧ jump_from_rpe_lb 10 = 5
    ∧ (∀ r : ℚ, 1 ≤ r → r ≤ 3 → jump_from_rpe_lb r = 35/2 - (5/2) * r)
    ∧ (∀ r : ℚ, 3 < r → r ≤ 7 → jump_from_rpe_lb r = 10 - (5/3) * (r - 4)) := by
  refine ⟨?_, ?_, ?_, by norm_num [jump_from_rpe_lb],
    by norm_num [jump_from_rpe_lb], by norm_num [jump_from_rpe_lb], ?_, ?_⟩
  · intro r1 r2 h
    have hc := clampRpe_mono h
    unfold rep_delta_from_rpe
    dsimp only
    split_ifs <;> first | (exfalso; push_neg at *; linarith) | norm_num
  · intro r1 r2 h1 h12 h2
    have e1 : max 1 (min 10 r1) = r1 := by
      rw [min_eq_right (by linarith), max_eq_right (by linarith)]
    have e2 : max 1 (min 10 r2) = r2 := by
      rw [min_eq_right (by linarith), max_eq_right (by linarith)]
    unfold jump_from_rpe_lb
    dsimp only
    rw [e1, e2]
    split_ifs <;> linarith
  · intro r1 r2 h1 h12 h2
    have e1 : max 1 (min 10 r1) = r1 := by
      rw [min_eq_right (by linarith), max_eq_right (by linarith)]
    have e2 : max 1 (min 10 r2) = r2 := by
      rw [min_eq_right (by linarith), max_eq_right (by linarith)]
    unfold jump_from_rpe_lb
    dsimp only
    rw [e1, e2]
    split_ifs <;> linarith
  · intro r h1 h2
    have e : max 1 (min 10 r) = r := by
      rw [min_eq_right (by linarith), max_eq_right (by linarith)]
    unfold jump_from_rpe_lb
    dsimp only
    rw [e]
    split_ifs <;> linarith
  · intro r h1 h2
    have e : max 1 (min 10 r) = r := by
      rw [min_eq_right (by linarith), max_eq_right (by linarith)]
    unfold jump_from_rpe_lb
    dsimp only
    rw [e]
    split_ifs <;> linarith

/-- C3 witness: the amended monotonicity and piece formulas instantiated at
concrete points. -/
theorem C3_curve_shape_witness :
    rep_delta_from_rpe 9 ≤ rep_delta_from_rpe 2
    ∧ jump_from_rpe_lb 3 ≤ jump_from_rpe_lb 2
    ∧ jump_from_rpe_lb 7 ≤ jump_from_rpe_lb 4
    ∧ jump_from_rpe_lb 2 = 25/2
    ∧ jump_from_rpe_lb 5 = 25/3 :=
  ⟨C3_curve_shape.1 2 9 (by norm_num),
   C3_curve_shape.2.1 2 3 (by norm_num) (by norm_num) (by norm_num),
   C3_curve_shape.2.2.1 4 7 (by norm_num) (by norm_num) (by norm_num),
   by
     have := C3_curve_shape.2.2.2.2.2.2.1 2 (by norm_num) (by norm_num)
     linarith,
   by
     have := C3_curve_shape.2.2.2.2.2.2.2 5 (by norm_num) (by norm_num)
     linarith⟩


/-! ### C5: the too-easy mid-range scenario -/

/-- C5 counterexample: for rep range (5,8), band (7,9), last set
(185, 7, RPE 5.0), the engine does NOT return `add_weight` with reps reset
to 5 — the Jeff-style revision is reps-first when below the rep cap. -/
theorem C5_counterexample :
    suggest_next_set_from_rpe ⟨185, 7, 5⟩ cfgBench settingsLB none
      = .ok ⟨"add_reps", 185, 8, Unit.lb⟩
    ∧ ("add_reps" : String) ≠ "add_weight" ∧ (8 : ℤ) ≠ 5
    ∧ ¬ ((185 : ℚ) < 185) := by
  refine ⟨?_, by decide, by decide, by norm_num⟩
  unfold suggest_next_set_from_rpe validate_inputs decide_branch cap_round
    dynamic_weight_increase_kg should_add_weight_from_rpe_drop
  norm_num [settingsLB, cfgBench, increment_in_kg, max_jump_in_kg, to_kg, from_kg,
    LB_PER_KG, round_to_increment, pyround, round_eq, normalize_display_weight,
    clamp_int, jump_from_rpe, jump_from_rpe_lb, Unit.value, kg_ne_lb, lb_ne_kg, min_def, max_def, abs_of_nonneg, abs_of_nonpos]

/-- C5 (amended): on that input the engine returns `add_reps`, keeps the
weight at 185, and bumps the reps to the rep cap 8. -/
theorem C5_too_easy_reps_first :
    suggest_next_set_from_rpe ⟨185, 7, 5⟩ cfgBench settingsLB none
      = .ok ⟨"add_reps", 185, 8, Unit.lb⟩ := by
  unfold suggest_next_set_from_rpe validate_inputs decide_branch cap_round
    dynamic_weight_increase_kg should_add_weight_from_rpe_drop
  norm_num [settingsLB, cfgBench, increment_in_kg, max_jump_in_kg, to_kg, from_kg,
    LB_PER_KG, round_to_increment, pyround, round_eq, normalize_display_weight,
    clamp_int, jump_from_rpe, jump_from_rpe_lb, Unit.value, kg_ne_lb, lb_ne_kg, min_def, max_def, abs_of_nonneg, abs_of_nonpos]

/-! ### C6: validation raises iff the input is malformed -/

/-- C6: the Rule Engine returns a Suggestion exactly when the input is
well-formed (rep_min ≥ 1, rep_max ≥ rep_min, RPE in [1,10], reps ≥ 1,
weight > 0); on every malformed input it raises, on every other path it
returns. -/
theorem C6_validation_iff (last_set : SetLog) (cfg : ExerciseConfig)
    (settings : UserSettings) (history : Option (List SetLog)) :
    (∃ s, suggest_next_set_from_rpe last_set cfg settings history = .ok s)
      ↔ (1 ≤ cfg.rep_range.1 ∧ cfg.rep_range.1 ≤ cfg.rep_range.2
         ∧ 1 ≤ last_set.rpe ∧ last_set.rpe ≤ 10
         ∧ 1 ≤ last_set.reps ∧ 0 < last_set.weight) := by
  unfold suggest_next_set_from_rpe validate_inputs
  by_cases hA : cfg.rep_range.1 < 1 ∨ cfg.rep_range.2 < cfg.rep_range.1
  · rw [if_pos hA]
    constructor
    · rintro ⟨s, h⟩; simp at h
    · rintro ⟨a, b, -⟩
      rcases hA with h | h <;> omega
  · rw [if_neg hA]
    by_cases hB : ¬ (1 ≤ last_set.rpe ∧ last_set.rpe ≤ 10)
    · rw [if_pos hB]
      constructor
      · rintro ⟨s, h⟩; simp at h
      · rintro ⟨-, -, a, b, -⟩; exact absurd ⟨a, b⟩ hB
    · rw [if_neg hB]
      by_cases hC : last_set.reps < 1
      · rw [if_pos hC]
        constructor
        · rintro ⟨s, h⟩; simp at h
        · rintro ⟨-, -, -, -, a, -⟩; omega
      · rw [if_neg hC]
        by_cases hD : last_set.weight ≤ 0
        · rw [if_pos hD]
          constructor
          · rintro ⟨s, h⟩; simp at h
          · rintro ⟨-, -, -, -, -, a⟩; linarith
        · rw [if_neg hD]
          push_neg at hA hB hD
          constructor
          · intro _
            exact ⟨by omega, by omega, hB.1, hB.2, by omega, by linarith⟩
          · intro _
            exact ⟨_, rfl⟩
/-! ### C2: next_reps always lies in the rep range -/

/-- A successful validation implies the integer well-formedness facts. -/
theorem validate_ok_facts (last_set : SetLog) (cfg : ExerciseConfig)
    (u : PUnit.{1}) (h : validate_inputs last_set cfg = .ok u) :
    1 ≤ cfg.rep_range.1 ∧ cfg.rep_range.1 ≤ cfg.rep_range.2
      ∧ 1 ≤ last_set.reps := by
  unfold validate_inputs at h
  split_ifs at h with h1 h2 h3 h4 <;> try exact Except.noConfusion h
  refine ⟨?_, ?_, ?_⟩ <;> omega

/-- Every branch of the decision function yields reps inside the range. -/
theorem decide_branch_reps_range (last_set : SetLog) (cfg : ExerciseConfig)
    (settings : UserSettings) (history : Option (List SetLog))
    (h1 : 1 ≤ cfg.rep_range.1) (h2 : cfg.rep_range.1 ≤ cfg.rep_range.2)
    (h3 : 1 ≤ last_set.reps) :
    cfg.rep_range.1 ≤ (decide_branch last_set cfg settings history).2.2
      ∧ (decide_branch last_set cfg settings history).2.2 ≤ cfg.rep_range.2 := by
  unfold decide_branch
  dsimp only
  split_ifs <;> constructor <;> simp only [clamp_int] <;> omega

/-- C2: for every input the Rule Engine accepts, the suggested `next_reps`
lies in `[rep_min, rep_max]`, on every decision path. -/
theorem C2_next_reps_in_range (last_set : SetLog) (cfg : ExerciseConfig)
    (settings : UserSettings) (history : Option (List SetLog)) (s : Suggestion)
    (h : suggest_next_set_from_rpe last_set cfg settings history = .ok s) :
    cfg.rep_range.1 ≤ s.next_reps ∧ s.next_reps ≤ cfg.rep_range.2 := by
  unfold suggest_next_set_from_rpe at h
  cases hv : validate_inputs last_set cfg with
  | error e => rw [hv] at h; simp at h
  | ok u =>
    rw [hv] at h
    simp only [Except.ok.injEq] at h
    obtain ⟨f1, f2, f3⟩ := validate_ok_facts last_set cfg u hv
    have := decide_branch_reps_range last_set cfg settings history f1 f2 f3
    rw [← h]
    exact this

/-- C2 witness: the in-band kg scenario (100 kg × 6 at RPE 8). -/
theorem C2_next_reps_in_range_witness :
    suggest_next_set_from_rpe ⟨100, 6, 8⟩ cfgBench settingsKG none
      = .ok ⟨"add_reps", 100, 7, Unit.kg⟩
    ∧ cfgBench.rep_range.1 ≤ (Suggestion.mk "add_reps" 100 7 Unit.kg).next_reps
    ∧ (Suggestion.mk "add_reps" 100 7 Unit.kg).next_reps ≤ cfgBench.rep_range.2 := by
  have heq : suggest_next_set_from_rpe ⟨100, 6, 8⟩ cfgBench settingsKG none
      = .ok ⟨"add_reps", 100, 7, Unit.kg⟩ := by
    unfold suggest_next_set_from_rpe validate_inputs decide_branch cap_round
      dynamic_weight_increase_kg should_add_weight_from_rpe_drop
    norm_num [settingsKG, cfgBench, increment_in_kg, max_jump_in_kg, to_kg, from_kg,
      LB_PER_KG, round_to_increment, pyround, round_eq, normalize_display_weight,
      clamp_int, jump_from_rpe, jump_from_rpe_lb, Unit.value, kg_ne_lb, lb_ne_kg, min_def, max_def, abs_of_nonneg, abs_of_nonpos]
  obtain ⟨h1, h2⟩ := C2_next_reps_in_range _ _ _ _ _ heq
  exact ⟨heq, h1, h2⟩

/-! ### C1: magnitude of the weight change after rounding -/

/-- C1 counterexample: with a 10 kg effective increment and a 2 kg max-jump
cap, lowering the weight from 4 kg re-rounds the clamped value 2 kg down to
0 kg — a 4 kg change, exceeding the 2 kg cap after the final rounding. -/
theorem C1_counterexample :
    suggest_next_set_from_rpe ⟨4, 5, 10⟩ cfgCoarse settingsKG none
      = .ok ⟨"lower_weight", 0, 5, Unit.kg⟩
    ∧ max_jump_in_kg settingsKG cfgCoarse.max_jump_override = 2
    ∧ |to_kg (0 : ℚ) Unit.kg - to_kg (4 : ℚ) Unit.kg| > 2 := by
  refine ⟨?_, by norm_num [max_jump_in_kg, to_kg, cfgCoarse, settingsKG, kg_ne_lb],
    by norm_num [to_kg, kg_ne_lb]⟩
  unfold suggest_next_set_from_rpe validate_inputs decide_branch cap_round
    dynamic_weight_increase_kg should_add_weight_from_rpe_drop
  norm_num [settingsKG, cfgCoarse, increment_in_kg, max_jump_in_kg, to_kg, from_kg,
    LB_PER_KG, round_to_increment, pyround, round_eq, normalize_display_weight,
    clamp_int, jump_from_rpe, jump_from_rpe_lb, Unit.value, kg_ne_lb, lb_ne_kg, min_def, max_def, abs_of_nonneg, abs_of_nonpos]

/-- C1 (amended): after the final rounding step the change between input
and output weight, in kg, is bounded by the effective max-jump plus half
the effective increment (`max 1e-9 inc_kg / 2`), whenever the effective
max-jump is nonnegative; the original cap alone can be exceeded, as the
counterexample shows. -/
theorem C1_rounded_jump_bound (last_set : SetLog) (cfg : ExerciseConfig)
    (settings : UserSettings) (history : Option (List SetLog))
    (hmj : 0 ≤ max_jump_in_kg settings cfg.max_jump_override) :
    |cap_round (to_kg last_set.weight settings.unit)
        (decide_branch last_set cfg settings history).2.1
        (increment_in_kg settings cfg.weight_increment_override)
        (max_jump_in_kg settings cfg.max_jump_override)
      - to_kg last_set.weight settings.unit|
      ≤ max_jump_in_kg settings cfg.max_jump_override
        + max (1/1000000000) (increment_in_kg settings cfg.weight_increment_override) / 2 :=
  cap_round_bound _ _ _ _ hmj

/-- C1 witness: the bound instantiated at the coarse-increment input. -/
theorem C1_rounded_jump_bound_witness :
    0 ≤ max_jump_in_kg settingsKG cfgCoarse.max_jump_override
    ∧ |cap_round (to_kg (4:ℚ) Unit.kg)
          (decide_branch ⟨4, 5, 10⟩ cfgCoarse settingsKG none).2.1
          (increment_in_kg settingsKG cfgCoarse.weight_increment_override)
          (max_jump_in_kg settingsKG cfgCoarse.max_jump_override)
        - to_kg (4:ℚ) Unit.kg|
        ≤ max_jump_in_kg settingsKG cfgCoarse.max_jump_override
          + max (1/1000000000) (increment_in_kg settingsKG cfgCoarse.weight_increment_override) / 2 :=
  ⟨by norm_num [max_jump_in_kg, to_kg, cfgCoarse, settingsKG, kg_ne_lb],
   C1_rounded_jump_bound ⟨4, 5, 10⟩ cfgCoarse settingsKG none
     (by norm_num [max_jump_in_kg, to_kg, cfgCoarse, settingsKG, kg_ne_lb])⟩

/-! ### C9: Welford calibration statistics -/

/-- Sum of squared deviations expanded over a list. -/
theorem list_sum_sq_sub (rs : List ℚ) (mu : ℚ) :
    (rs.map (fun r => (r - mu)^2)).sum
      = (rs.map (fun r => r^2)).sum - 2 * mu * rs.sum + (rs.length : ℚ) * mu^2 := by
  induction rs with
  | nil => simp
  | cons a l ih =>
    simp only [List.map_cons, List.sum_cons, List.length_cons, ih]
    push_cast
    ring

/-- One Welford step, in closed form (for a nonzero previous count). -/
theorem welford_step (c : RPECalibration) (S Q : ℚ) (k : ℕ) (hk : k ≠ 0)
    (hn : c.n = k) (hb : c.bias = S / (k : ℚ)) (hm : c.m2 = Q - S^2 / (k : ℚ))
    (a : ℚ) :
    (c.update a).n = k + 1
    ∧ (c.update a).bias = (S + a) / ((k : ℚ) + 1)
    ∧ (c.update a).m2 = (Q + a^2) - (S + a)^2 / ((k : ℚ) + 1) := by
  have hkq : ((k : ℚ)) ≠ 0 := Nat.cast_ne_zero.mpr hk
  have hkq1 : ((k : ℚ)) + 1 ≠ 0 := by positivity
  unfold RPECalibration.update
  refine ⟨by simp [hn], ?_, ?_⟩
  · simp only [hn, hb]
    push_cast
    field_simp
    ring
  · simp only [hn, hb, hm]
    push_cast
    field_simp
    ring

/-- Invariant of the Welford fold: after processing `rs`, the count is the
length, the bias is the mean, and `m2` is the sum of squares minus the
squared sum over the count (all with `x/0 = 0` conventions on `ℚ`). -/
theorem welford_invariant (rs : List ℚ) :
    (rs.foldl RPECalibration.update ⟨0, 0, 0⟩).n = rs.length
    ∧ (rs.foldl RPECalibration.update ⟨0, 0, 0⟩).bias = rs.sum / (rs.length : ℚ)
    ∧ (rs.foldl RPECalibration.update ⟨0, 0, 0⟩).m2
        = (rs.map (fun r => r^2)).sum - rs.sum^2 / (rs.length : ℚ) := by
  induction rs using List.reverseRecOn with
  | nil => simp
  | append_singleton l a ih =>
    obtain ⟨ihn, ihb, ihm⟩ := ih
    rw [List.foldl_append, List.foldl_cons, List.foldl_nil]
    rcases eq_or_ne l.length 0 with hl | hl
    · have hnil : l = [] := List.length_eq_zero.mp hl
      subst hnil
      simp only [List.foldl_nil]
      unfold RPECalibration.update
      simp
    · obtain ⟨sn, sb, sm⟩ := welford_step _ l.sum ((l.map (fun r => r^2)).sum)
        l.length hl ihn ihb ihm a
      refine ⟨?_, ?_, ?_⟩
      · rw [sn, List.length_append]
        simp
      · rw [sb, List.sum_append, List.length_append]
        push_cast
        simp
      · rw [sm, List.map_append, List.sum_append, List.sum_append,
          List.length_append]
        push_cast
        simp

/-- C9: after n updates with residuals r_1..r_n, `bias` is their arithmetic
mean, `variance` is the sample variance Σ(r_i − mean)²/(n−1) when n ≥ 2 and
1 when n < 2, and `calibrate(rpe) = rpe − bias`. -/
theorem C9_welford_calibration (rs : List ℚ) :
    (rs.foldl RPECalibration.update ⟨0, 0, 0⟩).n = rs.length
    ∧ (rs.foldl RPECalibration.update ⟨0, 0, 0⟩).bias = rs.sum / (rs.length : ℚ)
    ∧ (2 ≤ rs.length →
        (rs.foldl RPECalibration.update ⟨0, 0, 0⟩).variance
          = (rs.map (fun r => (r - rs.sum / (rs.length : ℚ))^2)).sum
              / ((rs.length : ℚ) - 1))
    ∧ (rs.length < 2 → (rs.foldl RPECalibration.update ⟨0, 0, 0⟩).variance = 1)
    ∧ (∀ rpe : ℚ,
        (rs.foldl RPECalibration.update ⟨0, 0, 0⟩).calibrate rpe
          = rpe - (rs.foldl RPECalibration.update ⟨0, 0, 0⟩).bias) := by
  obtain ⟨hn, hb, hm⟩ := welford_invariant rs
  refine ⟨hn, hb, ?_, ?_, ?_⟩
  · intro h2
    have hk : ((rs.length : ℚ)) ≠ 0 := by
      have : 0 < rs.length := by omega
      positivity
    have hexp := list_sum_sq_sub rs (rs.sum / (rs.length : ℚ))
    have hsimp : (rs.map (fun r => (r - rs.sum / (rs.length : ℚ))^2)).sum
        = (rs.map (fun r => r^2)).sum - rs.sum^2 / (rs.length : ℚ) := by
      rw [hexp]
      field_simp
      ring
    unfold RPECalibration.variance
    rw [if_neg (by omega), hm, hn, hsimp]
  · intro h2
    unfold RPECalibration.variance
    rw [if_pos (by omega)]
  · intro rpe
    unfold RPECalibration.calibrate
    rfl

/-- C9 witness: residuals [1, 3] give bias 2 and sample variance 2. -/
theorem C9_welford_calibration_witness :
    (([(1:ℚ), 3]).foldl RPECalibration.update ⟨0, 0, 0⟩).bias = 2
    ∧ (([(1:ℚ), 3]).foldl RPECalibration.update ⟨0, 0, 0⟩).variance = 2
    ∧ (([(1:ℚ), 3]).foldl RPECalibration.update ⟨0, 0, 0⟩).calibrate 9 = 7 := by
  have h := C9_welford_calibration [(1:ℚ), 3]
  obtain ⟨hn, hb, hv, -, hcal⟩ := h
  have hb2 : (([(1:ℚ), 3]).foldl RPECalibration.update ⟨0, 0, 0⟩).bias = 2 := by
    rw [hb]; norm_num
  refine ⟨hb2, ?_, ?_⟩
  · rw [hv (by norm_num)]
    norm_num
  · rw [hcal 9, hb2]
    norm_num

/-! ### C8: bandit score under repeated identical updates -/

/-- Updating an action rewrites its inverse matrix by a Sherman–Morrison
step. -/
theorem ensureAinv_update_self (bd : LinUCBBandit) (action : String)
    (x : List ℚ) (reward : ℚ) :
    (bd.update action x reward).ensureAinv action
      = sherman_morrison_inv_update (bd.ensureAinv action) x := by
  simp [LinUCBBandit.update, LinUCBBandit.ensureAinv]

/-- Updating an action folds the reward into its accumulator vector. -/
theorem ensureB_update_self (bd : LinUCBBandit) (action : String)
    (x : List ℚ) (reward : ℚ) :
    (bd.update action x reward).ensureB action
      = List.zipWith (fun bi xi => bi + reward * xi) (bd.ensureB action) x := by
  simp [LinUCBBandit.update, LinUCBBandit.ensureB]

/-- The scalar identity behind a 1-dim Sherman–Morrison step. -/
theorem one_dim_step_scalar (d1 c : ℚ) (hd1 : d1 ≠ 0) (hd2 : d1 + c^2 ≠ 0) :
    1/d1 - ((1/d1) * c) * ((1/d1) * c) / (1 + c * ((1/d1) * c))
      = 1/(d1 + c^2) := by
  have h : 1 + c * ((1/d1) * c) = (d1 + c^2) / d1 := by
    field_simp
    ring
  rw [h]
  field_simp
  ring

/-- A Sherman–Morrison step on a 1×1 matrix, in closed form. -/
theorem sherman_one (A c : ℚ) (hd : 1 + c * (A * c) ≠ 0) :
    sherman_morrison_inv_update [[A]] [c]
      = [[A - (A * c) * (A * c) / (1 + c * (A * c))]] := by
  unfold sherman_morrison_inv_update matvec outer add_scaled dot
  dsimp only
  simp only [List.map_cons, List.map_nil, List.zipWith_cons_cons,
    List.zipWith_nil_right, List.zipWith_nil_left, List.sum_cons, List.sum_nil,
    add_zero]
  rw [if_neg hd]
  simp only [List.cons.injEq, and_true]
  ring

/-- Closed form of the 1-dim bandit after `n` identical updates on action
"a": the inverse covariance is `1/(1+n c²)` and the accumulator is `n r c`. -/
theorem bandit_iter_closed (c r : ℚ) (n : ℕ) :
    ((fun bd => bd.update "a" [c] r)^[n] banditOne).ensureAinv "a"
        = [[1 / (1 + (n : ℚ) * c^2)]]
    ∧ ((fun bd => bd.update "a" [c] r)^[n] banditOne).ensureB "a"
        = [(n : ℚ) * r * c]
    ∧ ((fun bd => bd.update "a" [c] r)^[n] banditOne).alpha = 3/2 := by
  induction n with
  | zero =>
    refine ⟨?_, ?_, rfl⟩
    · show (banditOne.Ainv "a").getD (identity banditOne.dim 1) = _
      norm_num [banditOne, identity, List.range_succ]
    · show (banditOne.b "a").getD (List.replicate banditOne.dim 0) = _
      norm_num [banditOne]
  | succ n ih =>
    obtain ⟨ihA, ihB, ihα⟩ := ih
    have hden : (0:ℚ) < 1 + (n : ℚ) * c^2 := by positivity
    have h1 : (1 + (n : ℚ) * c^2) ≠ 0 := ne_of_gt hden
    have hd : 1 + c * ((1 / (1 + (n : ℚ) * c^2)) * c) ≠ 0 := by
      have h2 : c * ((1 / (1 + (n : ℚ) * c^2)) * c) = c^2 / (1 + (n : ℚ) * c^2) := by
        field_simp
        ring
      rw [h2]
      have h3 : (0:ℚ) ≤ c^2 / (1 + (n : ℚ) * c^2) := by positivity
      intro hcon
      nlinarith
    rw [Function.iterate_succ_apply']
    refine ⟨?_, ?_, ihα⟩
    · rw [ensureAinv_update_self, ihA, sherman_one _ _ hd]
      simp only [List.cons.injEq, and_true]
      push_cast
      have e : 1 + ((n : ℚ) + 1) * c^2 = (1 + (n : ℚ) * c^2) + c^2 := by ring
      rw [e]
      exact one_dim_step_scalar _ c h1 (by positivity)
    · rw [ensureB_update_self, ihB]
      simp only [List.zipWith_cons_cons, List.zipWith_nil_right,
        List.cons.injEq, and_true]
      push_cast
      try ring

/-- The mean part of the score on a 1-dim bandit, from the closed forms. -/
theorem meanTerm_formula (bd : LinUCBBandit) (a : String) (c A B : ℚ)
    (hA : bd.ensureAinv a = [[A]]) (hB : bd.ensureB a = [B]) :
    bd.meanTerm a [c] = A * B * c := by
  unfold LinUCBBandit.meanTerm matvec dot
  rw [hA, hB]
  simp only [List.map_cons, List.map_nil, List.zipWith_cons_cons,
    List.zipWith_nil_right, List.zipWith_nil_left, List.sum_cons, List.sum_nil,
    add_zero]
  try ring

/-- The variance part of the score on a 1-dim bandit, from the closed form. -/
theorem varTerm_formula (bd : LinUCBBandit) (a : String) (c A : ℚ)
    (hA : bd.ensureAinv a = [[A]]) :
    bd.varTerm a [c] = A * c^2 := by
  unfold LinUCBBandit.varTerm matvec dot
  rw [hA]
  simp only [List.map_cons, List.map_nil, List.zipWith_cons_cons,
    List.zipWith_nil_right, List.zipWith_nil_left, List.sum_cons, List.sum_nil,
    add_zero]
  try ring
/-- C8 counterexample: with context x = [1] and fixed positive reward 1, the
bandit score on action "a" strictly DECREASES from the first to the second
update (1/2 + 1.5·√(1/2) ≈ 1.56 down to 2/3 + 1.5·√(1/3) ≈ 1.53): the
confidence term shrinks faster than the mean term rises, so the score is
not strictly increasing across iterations. -/
theorem C8_counterexample :
    ((fun bd => bd.update "a" [1] 1)^[2] banditOne).score "a" [1]
      < ((fun bd => bd.update "a" [1] 1)^[1] banditOne).score "a" [1] := by
  obtain ⟨A1, B1, al1⟩ := bandit_iter_closed 1 1 1
  obtain ⟨A2, B2, al2⟩ := bandit_iter_closed 1 1 2
  have e1 : ((fun bd => bd.update "a" [1] 1)^[1] banditOne).meanTerm "a" [1] = 1/2 := by
    rw [meanTerm_formula _ "a" 1 _ _ A1 B1]
    norm_num
  have e2 : ((fun bd => bd.update "a" [1] 1)^[2] banditOne).meanTerm "a" [1] = 2/3 := by
    rw [meanTerm_formula _ "a" 1 _ _ A2 B2]
    norm_num
  have w1 : ((fun bd => bd.update "a" [1] 1)^[1] banditOne).varTerm "a" [1] = 1/2 := by
    rw [varTerm_formula _ "a" 1 _ A1]
    norm_num
  have w2 : ((fun bd => bd.update "a" [1] 1)^[2] banditOne).varTerm "a" [1] = 1/3 := by
    rw [varTerm_formula _ "a" 1 _ A2]
    norm_num
  unfold LinUCBBandit.score LinUCBBandit.confTerm
  rw [e1, e2, w1, w2, al1, al2]
  push_cast
  rw [max_eq_right (by norm_num : (0:ℝ) ≤ 1/3),
    max_eq_right (by norm_num : (0:ℝ) ≤ 1/2)]
  have s3 : Real.sqrt (1/3) < 578/1000 := by
    refine (Real.sqrt_lt' (by norm_num)).mpr (by norm_num)
  have s2 : (707:ℝ)/1000 < Real.sqrt (1/2) := by
    refine (Real.lt_sqrt (by norm_num)).mpr (by norm_num)
  linarith

/-- C8 (amended): under repeated identical updates (nonzero 1-dim context,
fixed positive reward) the MEAN term strictly increases and the CONFIDENCE
term strictly decreases with every iteration; the total score, their sum,
need not increase (see the counterexample). -/
theorem C8_mean_up_conf_down (c r : ℚ) (n : ℕ) (hc : c ≠ 0) (hr : 0 < r) :
    ((fun bd => bd.update "a" [c] r)^[n] banditOne).meanTerm "a" [c]
      < ((fun bd => bd.update "a" [c] r)^[n+1] banditOne).meanTerm "a" [c]
    ∧ ((fun bd => bd.update "a" [c] r)^[n+1] banditOne).confTerm "a" [c]
      < ((fun bd => bd.update "a" [c] r)^[n] banditOne).confTerm "a" [c] := by
  obtain ⟨An, Bn, aln⟩ := bandit_iter_closed c r n
  obtain ⟨An1, Bn1, aln1⟩ := bandit_iter_closed c r (n+1)
  have hc2 : (0:ℚ) < c^2 := by positivity
  have d1 : (0:ℚ) < 1 + (n:ℚ) * c^2 := by positivity
  constructor
  · rw [meanTerm_formula _ "a" c _ _ An Bn, meanTerm_formula _ "a" c _ _ An1 Bn1]
    push_cast
    have h1 : (1 + (n:ℚ) * c^2) ≠ 0 := ne_of_gt d1
    have h2 : (1 + ((n:ℚ) + 1) * c^2) ≠ 0 := by positivity
    have key : 1/(1 + ((n:ℚ) + 1) * c^2) * (((n:ℚ) + 1) * r * c) * c
          - 1/(1 + (n:ℚ) * c^2) * ((n:ℚ) * r * c) * c
        = r * c^2 / ((1 + (n:ℚ) * c^2) * (1 + ((n:ℚ) + 1) * c^2)) := by
      field_simp
      ring
    have pos : 0 < r * c^2 / ((1 + (n:ℚ) * c^2) * (1 + ((n:ℚ) + 1) * c^2)) := by
      positivity
    linarith
  · unfold LinUCBBandit.confTerm
    rw [varTerm_formula _ "a" c _ An, varTerm_formula _ "a" c _ An1, aln, aln1]
    push_cast
    have hcR : ((c:ℝ)) ≠ 0 := by exact_mod_cast hc
    have hc2R : (0:ℝ) < (c:ℝ)^2 := by positivity
    have d1R : (0:ℝ) < 1 + (n:ℝ) * (c:ℝ)^2 := by positivity
    have d2R : (0:ℝ) < 1 + ((n:ℝ) + 1) * (c:ℝ)^2 := by positivity
    have hddR : 1 + (n:ℝ) * (c:ℝ)^2 < 1 + ((n:ℝ) + 1) * (c:ℝ)^2 := by nlinarith
    have hltR : 1/(1 + ((n:ℝ) + 1) * (c:ℝ)^2) * (c:ℝ)^2
        < 1/(1 + (n:ℝ) * (c:ℝ)^2) * (c:ℝ)^2 := by
      have h := one_div_lt_one_div_of_lt d1R hddR
      nlinarith
    have m0 : max (0:ℝ) (1/(1 + (n:ℝ) * (c:ℝ)^2) * (c:ℝ)^2)
        = 1/(1 + (n:ℝ) * (c:ℝ)^2) * (c:ℝ)^2 := max_eq_right (by positivity)
    have m1 : max (0:ℝ) (1/(1 + ((n:ℝ) + 1) * (c:ℝ)^2) * (c:ℝ)^2)
        = 1/(1 + ((n:ℝ) + 1) * (c:ℝ)^2) * (c:ℝ)^2 := max_eq_right (by positivity)
    rw [m0, m1]
    have hs := Real.sqrt_lt_sqrt
      (le_of_lt (by positivity : (0:ℝ) < 1/(1 + ((n:ℝ) + 1) * (c:ℝ)^2) * (c:ℝ)^2))
      hltR
    have ha : (0:ℝ) < (3:ℝ)/2 := by norm_num
    exact mul_lt_mul_of_pos_left hs ha

/-- C8 witness: the amended monotonicity at c = 1, r = 1, first iteration. -/
theorem C8_mean_up_conf_down_witness :
    ((fun bd => bd.update "a" [1] 1)^[0] banditOne).meanTerm "a" [1]
      < ((fun bd => bd.update "a" [1] 1)^[1] banditOne).meanTerm "a" [1]
    ∧ ((fun bd => bd.update "a" [1] 1)^[1] banditOne).confTerm "a" [1]
      < ((fun bd => bd.update "a" [1] 1)^[0] banditOne).confTerm "a" [1] :=
  C8_mean_up_conf_down 1 1 0 (by norm_num) (by norm_num)

/-! ### ML policy: choose on a fresh bandit, and the best-candidate fold -/

/-- On a bandit that has seen no action, every action scores identically,
so `choose` returns the first action. -/
theorem choose_fresh (bd : LinUCBBandit)
    (hA : bd.Ainv = fun _ => none) (hb : bd.b = fun _ => none)
    (a₀ : String) (rest : List String) (x : List ℚ) :
    bd.choose (a₀ :: rest) x = a₀ := by
  have hsc : ∀ a : String, bd.score a x = bd.score a₀ x := by
    intro a
    simp only [LinUCBBandit.score, LinUCBBandit.meanTerm, LinUCBBandit.varTerm,
      LinUCBBandit.confTerm, LinUCBBandit.ensureAinv, LinUCBBandit.ensureB]
    rw [hA, hb]
  unfold LinUCBBandit.choose
  have hfold : ∀ (l : List String),
      l.foldl
        (fun best a =>
          let s := bd.score a x
          if s > best.2 then (a, s) else best)
        (a₀, bd.score a₀ x) = (a₀, bd.score a₀ x) := by
    intro l
    induction l with
    | nil => rfl
    | cons a t ih =>
      rw [List.foldl_cons]
      have hstep :
          (let s := bd.score a x
           if s > (a₀, bd.score a₀ x).2 then (a, s) else (a₀, bd.score a₀ x))
            = (a₀, bd.score a₀ x) := by
        dsimp only
        rw [hsc a]
        exact if_neg (lt_irrefl _)
      rw [hstep]
      exact ih
  exact congrArg Prod.fst (hfold rest)

/-- The best-score accumulator of the candidate fold never decreases. -/
theorem mlBestAux_fold_mono (score : String × ℚ × ℤ → ℚ)
    (pred : String × ℚ × ℤ → ℚ) (l : List (String × ℚ × ℤ))
    (acc : Option (String × ℚ × ℤ × ℚ) × ℚ) :
    acc.2 ≤ (l.foldl
      (fun acc c =>
        if score c > acc.2 then (some (c.1, c.2.1, c.2.2, pred c), score c) else acc)
      acc).2 := by
  induction l generalizing acc with
  | nil => exact le_rfl
  | cons a t ih =>
    rw [List.foldl_cons]
    refine le_trans ?_ (ih _)
    dsimp only
    split_ifs with h
    · exact le_of_lt h
    · exact le_rfl

/-- Every member of the remaining list scores at most the fold's final
best score, whatever the accumulator. -/
theorem mlBestAux_fold_le (score : String × ℚ × ℤ → ℚ)
    (pred : String × ℚ × ℤ → ℚ) (l : List (String × ℚ × ℤ)) :
    ∀ (acc : Option (String × ℚ × ℤ × ℚ) × ℚ) (c : String × ℚ × ℤ), c ∈ l →
      score c ≤ (l.foldl
        (fun acc c =>
          if score c > acc.2 then (some (c.1, c.2.1, c.2.2, pred c), score c) else acc)
        acc).2 := by
  induction l with
  | nil => intro acc c hc; cases hc
  | cons a t ih =>
    intro acc c hc
    rw [List.foldl_cons]
    rcases List.mem_cons.mp hc with rfl | hmem
    · refine le_trans ?_ (mlBestAux_fold_mono score pred t _)
      dsimp only
      split_ifs with h
      · exact le_rfl
      · exact le_of_not_lt h
    · exact ih _ c hmem

/-- Every candidate scores at most the best score found by `mlBestAux`. -/
theorem mlBestAux_le (score : String × ℚ × ℤ → ℚ)
    (pred : String × ℚ × ℤ → ℚ) (cands : List (String × ℚ × ℤ))
    (c : String × ℚ × ℤ) (hc : c ∈ cands) :
    score c ≤ (mlBestAux score pred cands).2 :=
  mlBestAux_fold_le score pred cands _ c hc

/-- Once the running best is `some`, it stays `some`. -/
theorem mlBestAux_fold_some (score : String × ℚ × ℤ → ℚ)
    (pred : String × ℚ × ℤ → ℚ) (l : List (String × ℚ × ℤ)) :
    ∀ (acc : Option (String × ℚ × ℤ × ℚ) × ℚ), acc.1 ≠ none →
      (l.foldl
        (fun acc c =>
          if score c > acc.2 then (some (c.1, c.2.1, c.2.2, pred c), score c) else acc)
        acc).1 ≠ none := by
  induction l with
  | nil => intro acc h; exact h
  | cons a t ih =>
    intro acc h
    rw [List.foldl_cons]
    refine ih _ ?_
    dsimp only
    split_ifs with hs
    · exact Option.some_ne_none _
    · exact h

/-- If the fold ends with no best candidate, every remaining candidate
scored at most the running threshold. -/
theorem mlBestAux_fold_none (score : String × ℚ × ℤ → ℚ)
    (pred : String × ℚ × ℤ → ℚ) (l : List (String × ℚ × ℤ)) :
    ∀ (acc : Option (String × ℚ × ℤ × ℚ) × ℚ),
      (l.foldl
        (fun acc c =>
          if score c > acc.2 then (some (c.1, c.2.1, c.2.2, pred c), score c) else acc)
        acc).1 = none →
      ∀ c ∈ l, score c ≤ acc.2 := by
  induction l with
  | nil => intro acc _ c hc; cases hc
  | cons a t ih =>
    intro acc hnone c hc
    rw [List.foldl_cons] at hnone
    by_cases hs : score a > acc.2
    · exfalso
      refine mlBestAux_fold_some score pred t _ ?_ hnone
      dsimp only
      rw [if_pos hs]
      exact Option.some_ne_none _
    · have hacc :
          (if score a > acc.2 then (some (a.1, a.2.1, a.2.2, pred a), score a) else acc)
            = acc := if_neg hs
      rw [hacc] at hnone
      rcases List.mem_cons.mp hc with rfl | hmem
      · exact le_of_not_lt hs
      · exact ih acc hnone c hmem

/-- If `mlBestAux` finds no best candidate, every candidate scored at most
the `-1e9` sentinel. -/
theorem mlBestAux_none (score : String × ℚ × ℤ → ℚ)
    (pred : String × ℚ × ℤ → ℚ) (cands : List (String × ℚ × ℤ))
    (h : (mlBestAux score pred cands).1 = none) :
    ∀ c ∈ cands, score c ≤ -(10:ℚ)^9 :=
  mlBestAux_fold_none score pred cands _ h

/-! ### C4: short-history guardrail of the ML policy -/

/-- C4 (amended): for any history SHORTER THAN 3 (the threshold in this
revision, not 6), the ML Policy's Suggestion is identical to calling the
Rule Engine with the same last set, config, settings — but with NO history
(the fallback call does not forward the history). -/
theorem C4_short_history_fallback (state : MLState) (user_id : String)
    (exercise : ExerciseConfig) (last_set : SetLog) (settings : UserSettings)
    (history : List SetLog) (h : history.length < 3) :
    suggest_next_set_ml state user_id exercise last_set settings history
      = suggest_next_set_from_rpe last_set exercise settings none := by
  unfold suggest_next_set_ml
  rw [if_pos h]

/-- C4 witness: the fallback equality at a concrete two-set history. -/
theorem C4_short_history_fallback_witness :
    histDrop.length < 3
    ∧ suggest_next_set_ml stFresh "u" cfgBench ⟨185, 6, 7⟩ settingsLB histDrop
        = suggest_next_set_from_rpe ⟨185, 6, 7⟩ cfgBench settingsLB none :=
  ⟨by decide,
   C4_short_history_fallback stFresh "u" cfgBench ⟨185, 6, 7⟩ settingsLB histDrop
     (by decide)⟩

/-- C4 counterexample: a history of length 2 (< 6, the claimed threshold)
on which the ML Policy's output DIFFERS from the Rule Engine called with
exactly the same inputs including the same history: the fallback drops the
history, losing the plateau-break trigger (add_reps 185×7 versus
add_weight 190×5). -/
theorem C4_counterexample :
    histDrop.length < 6
    ∧ suggest_next_set_ml stFresh "u" cfgBench ⟨185, 6, 7⟩ settingsLB histDrop
      ≠ suggest_next_set_from_rpe ⟨185, 6, 7⟩ cfgBench settingsLB (some histDrop) := by
  refine ⟨by decide, ?_⟩
  have hfall : suggest_next_set_ml stFresh "u" cfgBench ⟨185, 6, 7⟩ settingsLB histDrop
      = suggest_next_set_from_rpe ⟨185, 6, 7⟩ cfgBench settingsLB none := by
    unfold suggest_next_set_ml
    rw [if_pos (by decide)]
  rw [hfall]
  have h1 : suggest_next_set_from_rpe ⟨185, 6, 7⟩ cfgBench settingsLB none
      = .ok ⟨"add_reps", 185, 7, Unit.lb⟩ := by
    unfold suggest_next_set_from_rpe validate_inputs decide_branch cap_round
      dynamic_weight_increase_kg should_add_weight_from_rpe_drop
    norm_num [settingsLB, cfgBench, increment_in_kg, max_jump_in_kg, to_kg, from_kg,
      LB_PER_KG, round_to_increment, pyround, round_eq, normalize_display_weight,
      clamp_int, jump_from_rpe, jump_from_rpe_lb, Unit.value, kg_ne_lb, lb_ne_kg, min_def, max_def, abs_of_nonneg, abs_of_nonpos]
  have h2 : suggest_next_set_from_rpe ⟨185, 6, 7⟩ cfgBench settingsLB (some histDrop)
      = .ok ⟨"add_weight", 190, 5, Unit.lb⟩ := by
    unfold suggest_next_set_from_rpe validate_inputs decide_branch cap_round
      dynamic_weight_increase_kg should_add_weight_from_rpe_drop
      recent_same_prescription_rpes
    norm_num [settingsLB, cfgBench, histDrop, increment_in_kg, max_jump_in_kg,
      to_kg, from_kg, LB_PER_KG, round_to_increment, pyround, round_eq,
      normalize_display_weight, clamp_int, jump_from_rpe, jump_from_rpe_lb,
      Unit.value, kg_ne_lb, lb_ne_kg, min_def, max_def, abs_of_nonneg, abs_of_nonpos]
  rw [h1, h2]
  intro hcon
  simp only [Except.ok.injEq, Suggestion.mk.injEq] at hcon
  exact absurd hcon.1 (by decide)

/-- Feature vector of the last 9.4-RPE set against its truncated history. -/
theorem stNine_x_last :
    make_feature_vector stNine "u" cfgBench settingsKG 100 6 histNine.dropLast
      = [1/5, 1/5, 1/6, 4/15, 47/50, 47/50, 0, 1, 0, 0, 0, 0, 0, 0, 0, 0] := by
  norm_num [make_feature_vector, summarize_history, histNine, stNine, embZero,
    EmbeddingTable.get, clip, settingsKG, cfgBench, Unit.value, kg_ne_lb,
    min_def, max_def, List.dropLast, List.getLastD, List.headD, List.drop,
    List.cons_ne_nil]

/-- Updating the 9.4-bias model on the just-performed set is a no-op (the
prediction error is exactly zero). -/
theorem stNine_model_fixed :
    stNine.rpe_model.update
        [1/5, 1/5, 1/6, 4/15, 47/50, 47/50, 0, 1, 0, 0, 0, 0, 0, 0, 0, 0] (47/5)
      = stNine.rpe_model := by
  norm_num [OnlineLinearRegressor.update, OnlineLinearRegressor.predict, dot, stNine]

/-- The best candidate at the 9.4-RPE scenario: add_reps to the rep cap,
with predicted RPE 9.4 recorded in the best tuple. -/
theorem stNine_best :
    (mlBestAux
        (candScore stNine "u" cfgBench settingsKG ⟨100, 6, 47/5⟩ histNine
          stNine.rpe_model "add_weight")
        (candPred stNine "u" cfgBench settingsKG histNine stNine.rpe_model)
        (mlCandidates cfgBench ⟨100, 6, 47/5⟩ settingsKG)).1
      = some ("add_reps", 100, 8, 47/5) := by
  norm_num [mlBestAux, mlCandidates, weight_candidates, candScore, candPred,
    make_feature_vector, summarize_history, OnlineLinearRegressor.predict, dot,
    stNine, histNine, embZero, EmbeddingTable.get, clip, settingsKG, cfgBench,
    Unit.value, kg_ne_lb, min_def, max_def, List.cons_ne_nil, List.getLastD,
    List.headD, List.drop, List.filterMap, List.foldl,
    ne_ar_aw, ne_lw_aw, ne_lr_aw, ne_st_aw]

/-! ### C7: no hard-reject of candidates predicted above RPE 9.3 -/

/-- C7 counterexample: when every candidate's predicted RPE is 9.4 (> 9.3),
nothing is skipped: the policy still returns one of them (add_reps to the
rep cap, predicted RPE 9.4 — under the 9.5 penalty threshold, so not even
penalized). -/
theorem C7_counterexample :
    suggest_next_set_ml stNine "u" cfgBench ⟨100, 6, 47/5⟩ settingsKG histNine
      = .ok ⟨"add_reps", 100, 8, Unit.kg⟩
    ∧ candPred stNine "u" cfgBench settingsKG histNine stNine.rpe_model
        ("add_reps", 100, 8) = 47/5
    ∧ ((47:ℚ)/5 > 93/10) := by
  refine ⟨?_, ?_, by norm_num⟩
  · unfold suggest_next_set_ml
    rw [if_neg (by decide : ¬(histNine.length < 3))]
    dsimp only
    have hch : stNine.bandit.choose ACTIONS
        (make_feature_vector stNine "u" cfgBench settingsKG 100 6 histNine)
          = "add_weight" := by
      have h := choose_fresh stNine.bandit rfl rfl "add_weight"
        ["add_reps", "stay", "lower_reps", "lower_weight"]
        (make_feature_vector stNine "u" cfgBench settingsKG 100 6 histNine)
      simpa [ACTIONS] using h
    rw [stNine_x_last, stNine_model_fixed, hch, stNine_best]
    norm_num [normalize_display_weight, pyround, round_eq, kg_ne_lb, settingsKG]
  · norm_num [candPred, make_feature_vector, summarize_history,
      OnlineLinearRegressor.predict, dot, stNine, histNine, embZero,
      EmbeddingTable.get, clip, settingsKG, cfgBench, Unit.value, kg_ne_lb,
      min_def, max_def, List.cons_ne_nil, List.getLastD, List.headD, List.drop]

/-- C7 (amended): the policy never skips a candidate for a high predicted
RPE — a 0.75 penalty applies at predicted RPE ≥ 9.5, inside the score —
and the kept best bounds EVERY candidate's score, high-predicted-RPE
candidates included. -/
theorem C7_best_bounds_all_candidates (state : MLState) (user_id : String)
    (exercise : ExerciseConfig) (settings : UserSettings) (last_set : SetLog)
    (history : List SetLog) (model : OnlineLinearRegressor) (chosen : String) :
    ∀ c ∈ mlCandidates exercise last_set settings,
      candScore state user_id exercise settings last_set history model chosen c
        ≤ (mlBestAux
            (candScore state user_id exercise settings last_set history model chosen)
            (candPred state user_id exercise settings history model)
            (mlCandidates exercise last_set settings)).2 :=
  fun c hc => mlBestAux_le _ _ _ c hc

/-- C7 witness: the bound instantiated at the 9.4-RPE scenario's first
weight-up candidate. -/
theorem C7_best_bounds_all_candidates_witness :
    ("add_weight", (205:ℚ)/2, (5:ℤ)) ∈ mlCandidates cfgBench ⟨100, 6, 47/5⟩ settingsKG
    ∧ candScore stNine "u" cfgBench settingsKG ⟨100, 6, 47/5⟩ histNine
        stNine.rpe_model "add_weight" ("add_weight", 205/2, 5)
      ≤ (mlBestAux
          (candScore stNine "u" cfgBench settingsKG ⟨100, 6, 47/5⟩ histNine
            stNine.rpe_model "add_weight")
          (candPred stNine "u" cfgBench settingsKG histNine stNine.rpe_model)
          (mlCandidates cfgBench ⟨100, 6, 47/5⟩ settingsKG)).2 := by
  have hm : ("add_weight", (205:ℚ)/2, (5:ℤ))
      ∈ mlCandidates cfgBench ⟨100, 6, 47/5⟩ settingsKG := by
    norm_num [mlCandidates, weight_candidates, settingsKG, cfgBench, Unit.value,
      kg_ne_lb, min_def, max_def]
  exact ⟨hm, C7_best_bounds_all_candidates stNine "u" cfgBench settingsKG
    ⟨100, 6, 47/5⟩ histNine stNine.rpe_model "add_weight" _ hm⟩

/-! ### C10: the stay candidate and the reachability of the fallback -/

/-- At the huge-bias state, every candidate's predicted RPE is astronomic,
every score falls below the `-1e9` sentinel, and the fold keeps nothing. -/
theorem stHuge_best_none :
    (mlBestAux
        (candScore stHuge "u" cfgBench settingsKG ⟨100, 6, 8⟩ histEight
          (stHuge.rpe_model.update
            (make_feature_vector stHuge "u" cfgBench settingsKG 100 6
              histEight.dropLast) 8)
          "add_weight")
        (candPred stHuge "u" cfgBench settingsKG histEight
          (stHuge.rpe_model.update
            (make_feature_vector stHuge "u" cfgBench settingsKG 100 6
              histEight.dropLast) 8))
        (mlCandidates cfgBench ⟨100, 6, 8⟩ settingsKG)).1 = none := by
  norm_num [mlBestAux, mlCandidates, weight_candidates, candScore, candPred,
    make_feature_vector, summarize_history, OnlineLinearRegressor.predict,
    OnlineLinearRegressor.update, dot, stHuge, histEight, embZero,
    EmbeddingTable.get, clip, settingsKG, cfgBench, Unit.value, kg_ne_lb,
    min_def, max_def, List.cons_ne_nil, List.getLastD, List.headD, List.drop,
    List.dropLast, List.filterMap, List.foldl,
    ne_ar_aw, ne_lw_aw, ne_lr_aw, ne_st_aw]

/-- C10 counterexample: past the history guardrail, the candidate list is
non-empty, yet the no-surviving-candidate branch IS reachable — with a
huge-bias RPE model every score is below the `-1e9` sentinel and the
policy defers to the Rule Engine. -/
theorem C10_counterexample :
    mlCandidates cfgBench ⟨100, 6, 8⟩ settingsKG ≠ []
    ∧ (mlBestAux
        (candScore stHuge "u" cfgBench settingsKG ⟨100, 6, 8⟩ histEight
          (stHuge.rpe_model.update
            (make_feature_vector stHuge "u" cfgBench settingsKG 100 6
              histEight.dropLast) 8)
          "add_weight")
        (candPred stHuge "u" cfgBench settingsKG histEight
          (stHuge.rpe_model.update
            (make_feature_vector stHuge "u" cfgBench settingsKG 100 6
              histEight.dropLast) 8))
        (mlCandidates cfgBench ⟨100, 6, 8⟩ settingsKG)).1 = none
    ∧ suggest_next_set_ml stHuge "u" cfgBench ⟨100, 6, 8⟩ settingsKG histEight
        = suggest_next_set_from_rpe ⟨100, 6, 8⟩ cfgBench settingsKG none := by
  refine ⟨?_, stHuge_best_none, ?_⟩
  · unfold mlCandidates
    dsimp only
    intro hcon
    exact absurd (List.append_eq_nil.mp hcon).2 (by simp)
  · unfold suggest_next_set_ml
    rw [if_neg (by decide : ¬(histEight.length < 3))]
    dsimp only
    have hch : stHuge.bandit.choose ACTIONS
        (make_feature_vector stHuge "u" cfgBench settingsKG 100 6 histEight)
          = "add_weight" := by
      have h := choose_fresh stHuge.bandit rfl rfl "add_weight"
        ["add_reps", "stay", "lower_reps", "lower_weight"]
        (make_feature_vector stHuge "u" cfgBench settingsKG 100 6 histEight)
      simpa [ACTIONS] using h
    rw [hch, stHuge_best_none]

/-- C10 (amended): the candidate list always contains the stay candidate
(so it is non-empty), and the defer-to-rule-engine branch is reached
exactly when every candidate — the stay candidate included — scores at
most the `-1e9` sentinel, which a sufficiently degenerate learned state
can produce (see the counterexample): the branch is NOT unreachable. -/
theorem C10_stay_and_sentinel (state : MLState) (user_id : String)
    (exercise : ExerciseConfig) (settings : UserSettings) (last_set : SetLog)
    (history : List SetLog) (model : OnlineLinearRegressor) (chosen : String) :
    ("stay", last_set.weight,
        max exercise.rep_range.1 (min exercise.rep_range.2 last_set.reps))
      ∈ mlCandidates exercise last_set settings
    ∧ ((mlBestAux
          (candScore state user_id exercise settings last_set history model chosen)
          (candPred state user_id exercise settings history model)
          (mlCandidates exercise last_set settings)).1 = none →
        ∀ c ∈ mlCandidates exercise last_set settings,
          candScore state user_id exercise settings last_set history model chosen c
            ≤ -(10:ℚ)^9) := by
  constructor
  · unfold mlCandidates
    dsimp only
    exact List.mem_append_right _ (List.mem_singleton.mpr rfl)
  · intro hnone c hc
    exact mlBestAux_none _ _ _ hnone c hc

/-- C10 witness: the stay candidate's membership and its sub-sentinel score
at the huge-bias input. -/
theorem C10_stay_and_sentinel_witness :
    ("stay", (100:ℚ), (6:ℤ)) ∈ mlCandidates cfgBench ⟨100, 6, 8⟩ settingsKG
    ∧ candScore stHuge "u" cfgBench settingsKG ⟨100, 6, 8⟩ histEight
        (stHuge.rpe_model.update
          (make_feature_vector stHuge "u" cfgBench settingsKG 100 6
            histEight.dropLast) 8)
        "add_weight" ("stay", 100, 6)
      ≤ -(10:ℚ)^9 := by
  have h := C10_stay_and_sentinel stHuge "u" cfgBench settingsKG ⟨100, 6, 8⟩
    histEight
    (stHuge.rpe_model.update
      (make_feature_vector stHuge "u" cfgBench settingsKG 100 6
        histEight.dropLast) 8)
    "add_weight"
  have hm : ("stay", (100:ℚ), (6:ℤ)) ∈ mlCandidates cfgBench ⟨100, 6, 8⟩ settingsKG := by
    have h1 := h.1
    norm_num [cfgBench, min_def, max_def] at h1
    exact h1
  exact ⟨hm, h.2 stHuge_best_none _ hm⟩

end Kinetiq
